import Mathlib

/-!
Verification of the TOC-to-page-range partitioning and lookup subsystem.

The Python source is shallowly embedded below:
* `sanitize` embeds the title-cleaning expression
  `"".join(c for c in title if c.isalnum() or c in " _-").strip()`
  (helpers.py line 41, main.py lines 82-84 and 344);
* `create_pdf_directory` embeds helpers.py lines 13-18;
* `entryWrites` / `sectionWrites` / `pdfToImagesByToc` embed the
  partitioning loop of `pdf_to_images_by_toc` (helpers.py lines 29-59);
* `get_toc_images` embeds main.py lines 73-124;
* `get_page_image` embeds main.py lines 128-165.

Python machine integers are unbounded, so pages are modelled as `Int`;
errors raised as `HTTPException(status_code, detail)` are modelled as
`Except (Nat × String) _` values.
-/

namespace GrantEngine

/-! ### Character-level helpers (Python `str` methods, ASCII fragment) -/

/-- Python `c.isalnum() or c in " _-"`: the characters kept by the title
sanitizer.  (`isalnum` is modelled on its ASCII fragment.) -/
def keepChar (c : Char) : Bool :=
  c.isAlphanum || c = ' ' || c = '_' || c = '-'

/-- The default whitespace stripped by Python `str.strip()` (ASCII part). -/
def pyIsSpace (c : Char) : Bool :=
  c = ' ' || c = '\t' || c = '\n' || c = '\r' || c = '\x0b' || c = '\x0c'

/-- Drop leading characters satisfying `p` (Python `lstrip`). -/
def lstripL (p : Char → Bool) (l : List Char) : List Char :=
  l.dropWhile p

/-- Drop trailing characters satisfying `p` (Python `rstrip`). -/
def rstripL (p : Char → Bool) (l : List Char) : List Char :=
  (l.reverse.dropWhile p).reverse

/-- Python `str.strip()`: drop whitespace from both ends. -/
def stripL (p : Char → Bool) (l : List Char) : List Char :=
  rstripL p (lstripL p l)

/-- `"".join(c for c in title if c.isalnum() or c in " _-").strip()`
(helpers.py line 41; the identical expression recurs in main.py). -/
def sanitize (s : String) : String :=
  ⟨stripL pyIsSpace (s.data.filter keepChar)⟩

/-! ### Path helpers (`os.path` on POSIX) -/

/-- `os.path.join(a, b)` on lists of characters: if `b` is absolute it wins;
otherwise a separator is inserted unless `a` is empty or already ends in
one. -/
def pyJoinL (a b : List Char) : List Char :=
  if b.head? = some '/' then b
  else if a = [] ∨ a.getLast? = some '/' then a ++ b
  else a ++ '/' :: b

/-- `os.path.join` on strings. -/
def pyJoin (a b : String) : String :=
  ⟨pyJoinL a.data b.data⟩

/-- Index (from the left) of the last occurrence of `c` in `l`, or `-1`
(Python `str.rfind`). -/
def pyRfind (l : List Char) (c : Char) : Int :=
  l.foldl (fun (acc : Int × Int) x =>
    (if x = c then acc.2 else acc.1, acc.2 + 1)) (-1, 0) |>.1

/-- The stem component of `os.path.splitext(p)`: everything before the last
dot, unless the name up to that dot is empty or all dots. -/
def pySplitextStem (p : String) : String :=
  let l := p.data
  let sepIdx := pyRfind l '/'
  let dotIdx := pyRfind l '.'
  if dotIdx > sepIdx ∧
      ((l.take dotIdx.toNat).drop (sepIdx + 1).toNat).any (fun c => c ≠ '.') then
    ⟨l.take dotIdx.toNat⟩
  else p

/-- Base directory for all PDFs (helpers.py line 8). -/
def PDF_BASE_DIR : String := "images"

/-- helpers.py lines 13-18: the root directory for an uploaded file is
derived solely from the filename stem (the `uuid4` line is commented out
in the source). -/
def create_pdf_directory (pdf_filename : String) : String :=
  pyJoin PDF_BASE_DIR (pySplitextStem pdf_filename)

/-! ### The partitioner (`pdf_to_images_by_toc`, helpers.py lines 29-59) -/

/-- One outline entry `[level, title, page_number]` as returned by
`doc.get_toc()`. -/
structure TocEntry where
  level : Int
  title : String
  startPage : Int
deriving DecidableEq, Repr

/-- Python `range(a, b)` over integers. -/
def intRange (a b : Int) : List Int :=
  (List.range (b - a).toNat).map (fun (k : Nat) => a + (k : Int))

/-- `firstPage(i)`: the `page_number` of entry `i` (0 when out of range;
only used at valid indices). -/
def firstPageOf (toc : List TocEntry) (i : Nat) : Int :=
  ((toc[i]?).map (·.startPage)).getD 0

/-- `next_page` for entry `i` (helpers.py lines 46-49): start of the next
entry minus 1, or the rendered page count `P` for the last entry. -/
def lastPageOf (toc : List TocEntry) (P : Nat) (i : Nat) : Int :=
  match toc[i + 1]? with
  | some e => e.startPage - 1
  | none => (P : Int)

/-- The inclusive 1-based page range `[firstPage(i), lastPage(i)]` of entry
`i`, as the list of page numbers it covers. -/
def entryPages (toc : List TocEntry) (P : Nat) (i : Nat) : List Int :=
  intRange (firstPageOf toc i) (lastPageOf toc P i + 1)

/-- All pages covered by the computed ranges, in entry order. -/
def allRangePages (toc : List TocEntry) (P : Nat) : List Int :=
  (List.range toc.length).flatMap (entryPages toc P)

/-- The files the loop body writes for entry `i` (helpers.py lines 52-57):
pairs `(sanitized title, 1-based page number)` for every
`page_num in range(page_number - 1, next_page)` with `page_num < P`. -/
def entryWrites (toc : List TocEntry) (P : Nat) (i : Nat) : List (String × Int) :=
  match toc[i]? with
  | some e =>
      ((intRange (e.startPage - 1) (lastPageOf toc P i)).filter
        (fun p => p < (P : Int))).map
        (fun p => (sanitize e.title, p + 1))
  | none => []

/-- All files written by the partitioning loop, in write order. -/
def sectionWrites (toc : List TocEntry) (P : Nat) : List (String × Int) :=
  (List.range toc.length).flatMap (entryWrites toc P)

/-- `pdf_to_images_by_toc` (helpers.py lines 29-59) with the external
rasterizer and outline extractor abstracted into the parameters: `toc` is
what `get_toc_from_pdf` returned and `P` is `len(images)`.  Returns the
written `(section, page)` pairs and the effective outline. -/
def pdfToImagesByToc (toc : List TocEntry) (P : Nat) :
    List (String × Int) × List TocEntry :=
  let t := if toc = [] then [⟨1, "general", 1⟩] else toc
  (sectionWrites t P, t)

/-- The on-disk path of one written image:
`os.path.join(os.path.join(pdf_dir, title_clean), "page_<n>.jpg")`
(helpers.py lines 42, 54-55). -/
def imagePathOf (pdfDir sec : String) (page : Int) : String :=
  pyJoin (pyJoin pdfDir sec) ("page_" ++ toString page ++ ".jpg")

/-- The full list of paths written by the partitioner (the source's
`image_paths` accumulator). -/
def writePaths (pdfDir : String) (toc : List TocEntry) (P : Nat) : List String :=
  (sectionWrites toc P).map (fun w => imagePathOf pdfDir w.1 w.2)

/-! ### The store model and the lookup endpoints (main.py) -/

/-- One section directory written by the partitioner: its (sanitized) name
and the files inside it. -/
structure SectionDir where
  name : String
  files : List String
deriving DecidableEq, Repr

/-- One document root directory: files stored directly at the root (written
when a title sanitizes to the empty string) and its section
subdirectories. -/
structure DocRoot where
  rootFiles : List String
  sections : List SectionDir
deriving DecidableEq, Repr

/-- The base image store: document-root name to contents. -/
abbrev StoreFS := List (String × DocRoot)

def lookupRoot (fs : StoreFS) (d : String) : Option DocRoot :=
  (fs.find? (fun p => p.1 = d)).map (·.2)

/-- Python `str.endswith` over character lists. -/
def endsWithL (l suf : List Char) : Bool :=
  l.drop (l.length - suf.length) = suf

/-- `f.endswith((".jpg", ".jpeg", ".png"))` (main.py line 96). -/
def isImageFile (f : String) : Bool :=
  endsWithL f.data ".jpg".data || endsWithL f.data ".jpeg".data ||
    endsWithL f.data ".png".data

/-- Python `s.split(sep)` for a one-character separator. -/
def splitOnChar (c : Char) (l : List Char) : List (List Char) :=
  l.foldr (fun x acc =>
    match acc with
    | [] => [[x]]
    | h :: t => if x = c then [] :: h :: t else (x :: h) :: t) [[]]

/-- No two adjacent underscores (part of Python's `int` digit grouping
rule). -/
def noDoubleUnderscore : List Char → Bool
  | [] => true
  | [_] => true
  | a :: b :: t => !(a = '_' && b = '_') && noDoubleUnderscore (b :: t)

/-- Python `int(s)` (decimal): optional surrounding whitespace, one optional
sign, then digits possibly grouped by single underscores.  `none` models a
raised `ValueError`. -/
def pyIntOfChars (l : List Char) : Option Int :=
  let t := stripL pyIsSpace l
  let (sign, ds) : Int × List Char :=
    match t with
    | '-' :: r => (-1, r)
    | '+' :: r => (1, r)
    | r => (1, r)
  if ds ≠ [] ∧ ds.all (fun c => c.isDigit || c = '_') ∧
      ds.head? ≠ some '_' ∧ ds.getLast? ≠ some '_' ∧
      noDoubleUnderscore ds = true then
    some (sign * (ds.filter (fun c => c ≠ '_')).foldl
      (fun acc c => acc * 10 + ((c.toNat - '0'.toNat : Nat) : Int)) 0)
  else none

/-- The sort key `int(x.split("_")[1].split(".")[0])` (main.py line 100).
`none` models the exception path (IndexError / ValueError). -/
def pageKey (f : String) : Option Int :=
  match (splitOnChar '_' f.data)[1]? with
  | none => none
  | some b =>
      match (splitOnChar '.' b)[0]? with
      | none => none
      | some c => pyIntOfChars c

/-- Total version of the key used once all keys are known to extract. -/
def keyD (f : String) : Int :=
  (pageKey f).getD 0

/-- The comparison `list.sort(key=...)` sorts by: ascending extracted page
number.  Python's sort is stable; it is modelled by the stable
`insertionSort`. -/
def keyLe (a b : String) : Prop :=
  keyD a ≤ keyD b

instance : DecidableRel keyLe :=
  fun a b => inferInstanceAs (Decidable (keyD a ≤ keyD b))

instance : IsTotal String keyLe :=
  ⟨fun a b => Int.le_total (keyD a) (keyD b)⟩

instance : IsTrans String keyLe :=
  ⟨fun _ _ _ => Int.le_trans⟩

/-- `os.path.exists(section_dir)` over the model: the empty name denotes the
root itself (`os.path.join(root, "")` is the root directory), a section
name exists if some subdirectory or root-level file carries it. -/
def sectionExists (doc : DocRoot) (name : String) : Bool :=
  name = "" || doc.sections.any (fun s => s.name = name) ||
    doc.rootFiles.contains name

/-- `os.listdir(section_dir)` over the model; `none` when the name denotes a
root-level plain file (listdir raises). Listing the root shows both its
files and its subdirectory names. -/
def sectionListing (doc : DocRoot) (name : String) : Option (List String) :=
  if name = "" then some (doc.rootFiles ++ doc.sections.map (·.name))
  else (doc.sections.find? (fun s => s.name = name)).map (·.files)

/-- `get_toc_images` (main.py lines 73-124).  The result is the `images`
field of the response (ordered URIs); errors are `(status_code, detail)`. -/
def get_toc_images (fs : StoreFS) (pdf_dir toc_section : String) :
    Except (Nat × String) (List String) :=
  match lookupRoot fs pdf_dir with
  | none =>
      .error (404, "PDF directory \x27" ++ pdf_dir ++ "\x27 not found")
  | some doc =>
      let clean := sanitize toc_section
      if sectionExists doc clean then
        match sectionListing doc clean with
        | none => .error (500, "Error reading TOC section directory")
        | some files =>
            let image_files := files.filter isImageFile
            if image_files.all (fun f => (pageKey f).isSome) then
              let sorted := List.insertionSort keyLe image_files
              if sorted = [] then
                .error (404, "No images found in TOC section \x27" ++
                  toc_section ++ "\x27")
              else
                .ok (sorted.map (fun f =>
                  "/images/" ++ pdf_dir ++ "/" ++ clean ++ "/" ++ f))
            else .error (500, "Error reading TOC section directory")
      else
        .error (404, "TOC section \x27" ++ toc_section ++
          "\x27 not found in PDF directory \x27" ++ pdf_dir ++ "\x27")

/-- The status code of a failed lookup, `none` on success. -/
def errStatus {α : Type} (r : Except (Nat × String) α) : Option Nat :=
  match r with
  | .error e => some e.1
  | .ok _ => none

/-- `get_page_image` (main.py lines 128-165).  Walks root files first, then
each section in order, returning `(section, uri)` for the first file equal
to `page_<n>.jpg`.  The miss case reproduces the source faithfully: the
`HTTPException(404, ...)` raised inside the `try` block is caught by
`except Exception` and re-raised as a 500 whose detail embeds
`str(HTTPException) = "<status>: <detail>"`. -/
def get_page_image (fs : StoreFS) (pdf_dir : String) (page_number : Int) :
    Except (Nat × String) (String × String) :=
  match lookupRoot fs pdf_dir with
  | none =>
      .error (404, "PDF directory \x27" ++ pdf_dir ++ "\x27 not found")
  | some doc =>
      let target := "page_" ++ toString page_number ++ ".jpg"
      match doc.rootFiles.find? (fun f => f = target) with
      | some f => .ok (pdf_dir, "/images/" ++ pdf_dir ++ "/" ++ f)
      | none =>
          match doc.sections.find? (fun sd => sd.files.contains target) with
          | some sd =>
              .ok (sd.name, "/images/" ++ pdf_dir ++ "/" ++ sd.name ++ "/" ++ target)
          | none =>
              .error (500, "Error searching for page: 404: Page " ++
                toString page_number ++ " not found in PDF directory \x27" ++
                pdf_dir ++ "\x27")

/-! ### Lemmas about stripping and sanitization -/

theorem dropWhile_dropWhile (p : Char → Bool) (l : List Char) :
    List.dropWhile p (List.dropWhile p l) = List.dropWhile p l := by
  induction l with
  | nil => rfl
  | cons a t ih =>
      by_cases ha : p a
      · simpa [List.dropWhile_cons, ha] using ih
      · simp [List.dropWhile_cons, ha]

theorem lstripL_idem (p : Char → Bool) (l : List Char) :
    lstripL p (lstripL p l) = lstripL p l :=
  dropWhile_dropWhile p l

theorem rstripL_idem (p : Char → Bool) (l : List Char) :
    rstripL p (rstripL p l) = rstripL p l := by
  simp only [rstripL, List.reverse_reverse]
  rw [dropWhile_dropWhile]

theorem head?_lstripL (p : Char → Bool) (l : List Char) {a : Char}
    (h : (lstripL p l).head? = some a) : p a = false := by
  induction l with
  | nil => simp [lstripL] at h
  | cons x t ih =>
      by_cases hx : p x
      · exact ih (by simpa [lstripL, List.dropWhile_cons, hx] using h)
      · simp [lstripL, List.dropWhile_cons, hx] at h
        simpa [← h] using hx

theorem rstripL_pre (p : Char → Bool) (l : List Char) :
    ∃ t, rstripL p l ++ t = l := by
  obtain ⟨t, ht⟩ := List.dropWhile_suffix (l := l.reverse) p
  refine ⟨t.reverse, ?_⟩
  have : (t ++ List.dropWhile p l.reverse).reverse = l := by rw [ht, List.reverse_reverse]
  simpa [List.reverse_append, rstripL] using this

theorem head?_stripL (p : Char → Bool) (l : List Char) {a : Char}
    (h : (stripL p l).head? = some a) : p a = false := by
  obtain ⟨t, ht⟩ := rstripL_pre p (lstripL p l)
  apply head?_lstripL p l
  rcases hc : stripL p l with _ | ⟨b, rest⟩
  · rw [hc] at h; simp at h
  · rw [hc] at h
    have hl : lstripL p l = b :: (rest ++ t) := by
      have := ht
      rw [show rstripL p (lstripL p l) = stripL p l from rfl, hc] at this
      simpa using this.symm
    rw [hl]
    simpa using h

theorem getLast?_stripL (p : Char → Bool) (l : List Char) {a : Char}
    (h : (stripL p l).getLast? = some a) : p a = false := by
  have hrw : stripL p l = ((lstripL p l).reverse.dropWhile p).reverse := rfl
  rw [hrw, List.getLast?_reverse] at h
  exact head?_lstripL p (lstripL p l).reverse
    (by simpa [lstripL] using h)

theorem lstripL_stripL (p : Char → Bool) (l : List Char) :
    lstripL p (stripL p l) = stripL p l := by
  rcases hc : stripL p l with _ | ⟨b, rest⟩
  · simp [lstripL]
  · have hb : p b = false := head?_stripL p l (by rw [hc]; rfl)
    simp [lstripL, List.dropWhile_cons, hb]

theorem stripL_idem (p : Char → Bool) (l : List Char) :
    stripL p (stripL p l) = stripL p l := by
  show rstripL p (lstripL p (stripL p l)) = stripL p l
  rw [lstripL_stripL]
  show rstripL p (rstripL p (lstripL p l)) = _
  rw [rstripL_idem]
  rfl

theorem stripL_sublist (p : Char → Bool) (l : List Char) :
    (stripL p l).Sublist l := by
  obtain ⟨t, ht⟩ := rstripL_pre p (lstripL p l)
  have h1 : (stripL p l).Sublist (lstripL p l) := by
    have h := List.sublist_append_left (rstripL p (lstripL p l)) t
    rwa [ht] at h
  obtain ⟨u, hu⟩ := List.dropWhile_suffix (l := l) p
  have h2 : (lstripL p l).Sublist l := by
    have h := List.sublist_append_right u (lstripL p l)
    rwa [show u ++ lstripL p l = l from hu] at h
  exact h1.trans h2

theorem mem_of_mem_stripL {p : Char → Bool} {l : List Char} {a : Char}
    (h : a ∈ stripL p l) : a ∈ l :=
  (stripL_sublist p l).subset h

theorem sanitize_data (s : String) :
    (sanitize s).data = stripL pyIsSpace (s.data.filter keepChar) := rfl

/-- claim C4 — The title-sanitization rule (keep only alphanumeric
characters, spaces, underscores and hyphens, then trim) is idempotent: for
every string `s`, `sanitize (sanitize s) = sanitize s`. -/
theorem C4_sanitize_idempotent (s : String) :
    sanitize (sanitize s) = sanitize s := by
  have hfilter : ((sanitize s).data).filter keepChar = (sanitize s).data := by
    rw [sanitize_data]
    exact List.filter_eq_self.mpr fun a ha =>
      List.of_mem_filter (mem_of_mem_stripL ha)
  show (⟨stripL pyIsSpace (((sanitize s).data).filter keepChar)⟩ : String) = sanitize s
  rw [hfilter, sanitize_data, stripL_idem]
  rfl

/-- claim C10 — Every sanitized section name consists only of alphanumeric
characters, spaces, underscores and hyphens with no leading or trailing
whitespace; a title with no kept character (e.g. `"###"`) sanitizes to the
empty string, and the partitioner then writes that entry's images directly
under the document root (`os.path.join` with an empty component adds no
directory level). -/
theorem C10_sanitized_name_invariants :
    (∀ title : String, ((sanitize title).data.all keepChar = true) ∧
      (∀ c, (sanitize title).data.head? = some c → pyIsSpace c = false) ∧
      (∀ c, (sanitize title).data.getLast? = some c → pyIsSpace c = false)) ∧
    sanitize "###" = "" ∧
    (∀ (root : String) (p : Int), root.data ≠ [] → root.data.getLast? ≠ some '/' →
      imagePathOf root "" p = root ++ "/page_" ++ toString p ++ ".jpg") ∧
    writePaths "images/doc" [⟨1, "###", 1⟩] 2 =
      ["images/doc/page_1.jpg", "images/doc/page_2.jpg"] := by
  refine ⟨fun title => ⟨?_, ?_, ?_⟩, by decide, fun root p h1 h2 => ?_, by decide⟩
  · exact List.all_eq_true.mpr fun a ha =>
      List.of_mem_filter (mem_of_mem_stripL (sanitize_data title ▸ ha))
  · intro c hc
    exact head?_stripL pyIsSpace _ (sanitize_data title ▸ hc)
  · intro c hc
    exact getLast?_stripL pyIsSpace _ (sanitize_data title ▸ hc)
  · have hjoin1 : (pyJoin root "").data = root.data ++ ['/'] := by
      simp only [pyJoin, pyJoinL, show ("" : String).data = [] from rfl]
      rw [if_neg (by simp), if_neg (by simp [h1, h2])]
    have hfname : ("page_" ++ toString p ++ ".jpg").data =
        'p' :: ("age_".data ++ (toString p).data ++ ".jpg".data) := by
      simp [String.data_append, show ("page_" : String).data =
        'p' :: ("age_" : String).data from rfl]
    rw [String.ext_iff]
    show (pyJoinL (pyJoin root "").data ("page_" ++ toString p ++ ".jpg").data) = _
    rw [hjoin1, hfname]
    rw [pyJoinL, if_neg (by simp), if_pos (by simp)]
    simp [String.data_append, show ("/page_" : String).data =
      '/' :: 'p' :: ("age_" : String).data from rfl]

theorem C10_sanitized_name_invariants_witness :
    pyIsSpace 'a' = false ∧ pyIsSpace 'b' = false ∧
    imagePathOf "images/doc" "" 7 = "images/doc/page_7.jpg" :=
  ⟨(C10_sanitized_name_invariants.1 " a b ").2.1 'a' (by decide),
   (C10_sanitized_name_invariants.1 " a b ").2.2 'b' (by decide),
   C10_sanitized_name_invariants.2.2.1 "images/doc" 7 (by decide) (by decide)⟩

/-- claim C9 — The directory registry derives the document root solely from
the uploaded filename's stem (the `uuid4` token is commented out):
`create_pdf_directory` depends only on `splitext(filename)[0]`, so uploads
whose filenames share a stem — in particular two uploads of the very same
filename — are assigned the same root directory under the base store. -/
theorem C9_registry_stem :
    (∀ f g : String, pySplitextStem f = pySplitextStem g →
        create_pdf_directory f = create_pdf_directory g) ∧
    create_pdf_directory "report.pdf" = "images/report" ∧
    create_pdf_directory "report.txt" = "images/report" ∧
    pySplitextStem "report.pdf" = "report" :=
  ⟨fun f g h => by simp [create_pdf_directory, h], by decide, by decide, by decide⟩

theorem C9_registry_stem_witness :
    pySplitextStem "report.pdf" = pySplitextStem "report.txt" ∧
    create_pdf_directory "report.pdf" = create_pdf_directory "report.txt" :=
  ⟨by decide, C9_registry_stem.1 "report.pdf" "report.txt" (by decide)⟩

/-! ### Lemmas about integer ranges and the partition -/

theorem mem_intRange {a b q : Int} : q ∈ intRange a b ↔ a ≤ q ∧ q < b := by
  simp only [intRange, List.mem_map, List.mem_range]
  constructor
  · rintro ⟨k, hk, rfl⟩
    omega
  · rintro ⟨h1, h2⟩
    exact ⟨(q - a).toNat, by omega, by omega⟩

theorem intRange_eq_nil {a b : Int} (h : b ≤ a) : intRange a b = [] := by
  simp [intRange, show (b - a).toNat = 0 by omega]

theorem intRange_append {a b c : Int} (hab : a ≤ b) (hbc : b ≤ c) :
    intRange a b ++ intRange b c = intRange a c := by
  have hsum : (c - a).toNat = (b - a).toNat + (c - b).toNat := by omega
  rw [intRange, intRange, intRange, hsum, List.range_add, List.map_append,
    List.map_map]
  congr 1
  apply List.map_congr_left
  intro k _
  simp only [Function.comp_apply]
  omega

theorem entryPages_cons_succ (e : TocEntry) (t : List TocEntry) (P : Nat) (j : Nat) :
    entryPages (e :: t) P (j + 1) = entryPages t P j := by
  simp [entryPages, firstPageOf, lastPageOf, List.getElem?_cons_succ]

theorem allRangePages_cons (e : TocEntry) (t : List TocEntry) (P : Nat) :
    allRangePages (e :: t) P =
      entryPages (e :: t) P 0 ++ allRangePages t P := by
  rw [allRangePages, show (e :: t).length = t.length + 1 from rfl,
    List.range_succ_eq_map, List.flatMap_cons]
  congr 1
  rw [List.flatMap_map, allRangePages]
  exact List.flatMap_congr fun j _ => entryPages_cons_succ e t P j

theorem allRangePages_covers :
    ∀ (t : List TocEntry) (e : TocEntry) (P : Nat),
      List.Chain' (fun x y => x.startPage < y.startPage) (e :: t) →
      (∀ x ∈ e :: t, x.startPage ≤ (P : Int) + 1) →
      allRangePages (e :: t) P = intRange e.startPage ((P : Int) + 1) := by
  intro t
  induction t with
  | nil =>
      intro e P _ _
      rw [allRangePages, show List.range [e].length = [0] from rfl,
        List.flatMap_cons]
      simp [entryPages, firstPageOf, lastPageOf]
  | cons e2 t ih =>
      intro e P hchain hle
      rw [allRangePages_cons]
      have hhead : entryPages (e :: e2 :: t) P 0 = intRange e.startPage e2.startPage := by
        simp [entryPages, firstPageOf, lastPageOf]
      have hlt : e.startPage < e2.startPage := by
        rcases List.chain'_cons.mp hchain with ⟨h, _⟩
        exact h
      have htail := ih e2 P (List.chain'_cons.mp hchain).2
        (fun x hx => hle x (List.mem_cons_of_mem e hx))
      rw [hhead, htail]
      exact intRange_append (le_of_lt hlt)
        (hle e2 (List.mem_cons_of_mem e (List.mem_cons_self e2 t)))

/-- claim C1 (amended) — For every outline with strictly increasing
`startPage` values whose first entry starts at page 1 and whose startPages
are at most `P + 1`, the computed page ranges
(`lastPage(i) = e[i+1].startPage - 1` for `i < N-1`, `lastPage(N-1) = P`,
`firstPage(i) = e[i].startPage`) cover exactly the pages `1..P`, each page
once (their concatenation is literally the list `[1..P]`); in particular
for the outline `[(1,Intro,1), (1,Methods,5), (1,Results,9)]` with `P = 12`
the ranges are Intro = [1,4], Methods = [5,8], Results = [9,12] and exactly
12 files are written across the three section directories. -/
theorem C1_partition_contiguity :
    (∀ (toc : List TocEntry) (P : Nat),
        toc ≠ [] →
        List.Chain' (fun x y => x.startPage < y.startPage) toc →
        firstPageOf toc 0 = 1 →
        (∀ x ∈ toc, x.startPage ≤ (P : Int) + 1) →
        allRangePages toc P = intRange 1 ((P : Int) + 1)) ∧
    (firstPageOf [⟨1, "Intro", 1⟩, ⟨1, "Methods", 5⟩, ⟨1, "Results", 9⟩] 0,
      lastPageOf [⟨1, "Intro", 1⟩, ⟨1, "Methods", 5⟩, ⟨1, "Results", 9⟩] 12 0)
        = (1, 4) ∧
    (firstPageOf [⟨1, "Intro", 1⟩, ⟨1, "Methods", 5⟩, ⟨1, "Results", 9⟩] 1,
      lastPageOf [⟨1, "Intro", 1⟩, ⟨1, "Methods", 5⟩, ⟨1, "Results", 9⟩] 12 1)
        = (5, 8) ∧
    (firstPageOf [⟨1, "Intro", 1⟩, ⟨1, "Methods", 5⟩, ⟨1, "Results", 9⟩] 2,
      lastPageOf [⟨1, "Intro", 1⟩, ⟨1, "Methods", 5⟩, ⟨1, "Results", 9⟩] 12 2)
        = (9, 12) ∧
    (sectionWrites [⟨1, "Intro", 1⟩, ⟨1, "Methods", 5⟩, ⟨1, "Results", 9⟩] 12).length
        = 12 ∧
    ((sectionWrites [⟨1, "Intro", 1⟩, ⟨1, "Methods", 5⟩, ⟨1, "Results", 9⟩] 12).map
        Prod.fst).dedup = ["Intro", "Methods", "Results"] := by
  refine ⟨?_, by decide, by decide, by decide, by decide, by decide⟩
  intro toc P hne hchain hfirst hle
  cases toc with
  | nil => exact absurd rfl hne
  | cons e t =>
      have hcov := allRangePages_covers t e P hchain hle
      have he : e.startPage = 1 := by
        simpa [firstPageOf] using hfirst
      rw [hcov, he]

/-- claim C1 counterexample — a strictly increasing outline whose first
entry does not start at page 1 (and whose last range overruns the rendered
page count): for the outline `[(1,A,2), (1,B,9)]` with `P = 5`, the ranges
are A = [2,8], B = [9,5]; their pages are not the pages `1..5` (page 1 is
left out and pages 6..8 are covered), refuting the claim as stated. -/
theorem C1_partition_contiguity_counterexample :
    ¬ (allRangePages [⟨1, "A", 2⟩, ⟨1, "B", 9⟩] 5).Perm
        (intRange 1 (((5 : Nat) : Int) + 1)) := by
  decide

theorem C1_partition_contiguity_witness :
    allRangePages [⟨1, "Intro", 1⟩, ⟨1, "Methods", 5⟩, ⟨1, "Results", 9⟩] 12 =
      intRange 1 (((12 : Nat) : Int) + 1) :=
  C1_partition_contiguity.1 [⟨1, "Intro", 1⟩, ⟨1, "Methods", 5⟩, ⟨1, "Results", 9⟩]
    12 (by decide) (by simp [List.chain'_cons]) (by decide) (by decide)

/-- claim C2 — An empty (or absent) extracted outline is replaced by the
single synthetic entry `(1, "general", 1)`: processing yields exactly the
writes `page_1 .. page_P` all under the one section `general`, whose page
range is `[1, P]`. -/
theorem C2_default_outline (P : Nat) :
    pdfToImagesByToc [] P =
      ((List.range P).map (fun (k : Nat) => ("general", (k : Int) + 1)),
        [⟨1, "general", 1⟩]) ∧
    (firstPageOf [⟨1, "general", 1⟩] 0, lastPageOf [⟨1, "general", 1⟩] P 0)
      = (1, (P : Int)) ∧
    ∀ w ∈ (pdfToImagesByToc [] P).1, w.1 = "general" := by
  have hsan : sanitize "general" = "general" := by decide
  have hrange : intRange 0 ((P : Nat) : Int) =
      (List.range P).map (fun (k : Nat) => (k : Int)) := by
    simp [intRange]
  have hfilter : ((List.range P).map (fun (k : Nat) => (k : Int))).filter
      (fun p => p < (P : Int)) = (List.range P).map (fun (k : Nat) => (k : Int)) := by
    apply List.filter_eq_self.mpr
    intro a ha
    simp only [List.mem_map, List.mem_range] at ha
    obtain ⟨k, hk, rfl⟩ := ha
    simpa using hk
  have hw : entryWrites [⟨1, "general", 1⟩] P 0 =
      (List.range P).map (fun (k : Nat) => ("general", (k : Int) + 1)) := by
    show ((intRange ((1 : Int) - 1) ((P : Nat) : Int)).filter
        (fun p => p < (P : Int))).map (fun p => (sanitize "general", p + 1)) = _
    rw [show (1 : Int) - 1 = 0 from rfl, hrange, hfilter, List.map_map, hsan]
    rfl
  have hsec : sectionWrites [⟨1, "general", 1⟩] P =
      entryWrites [⟨1, "general", 1⟩] P 0 := by
    rw [sectionWrites,
      show List.range ([⟨1, "general", 1⟩] : List TocEntry).length = [0] from rfl,
      List.flatMap_cons]
    simp
  have hmain : pdfToImagesByToc [] P =
      ((List.range P).map (fun (k : Nat) => ("general", (k : Int) + 1)),
        [⟨1, "general", 1⟩]) := by
    show (sectionWrites [⟨1, "general", 1⟩] P,
      ([⟨1, "general", 1⟩] : List TocEntry)) = _
    rw [hsec, hw]
  refine ⟨hmain, rfl, ?_⟩
  intro w hmem
  rw [hmain] at hmem
  simp only [List.mem_map, List.mem_range] at hmem
  obtain ⟨k, _, rfl⟩ := hmem
  rfl

theorem C2_default_outline_witness :
    pdfToImagesByToc [] 3 =
      ((List.range 3).map (fun (k : Nat) => ("general", (k : Int) + 1)),
        [⟨1, "general", 1⟩]) ∧
    (("general", (2 : Int)) : String × Int).1 = "general" :=
  ⟨(C2_default_outline 3).1,
   (C2_default_outline 3).2.2 ("general", 2) (by decide)⟩

theorem flatMap_filter_ne {α : Type} (l : List Nat) (i : Nat) (f : Nat → List α)
    (h : f i = []) : l.flatMap f = (l.filter (fun j => j ≠ i)).flatMap f := by
  induction l with
  | nil => rfl
  | cons a t ih =>
      by_cases ha : a = i
      · subst ha
        simp [List.flatMap_cons, List.filter_cons, h, ih]
      · simp [List.flatMap_cons, List.filter_cons, ha, ih]

theorem snd_le_of_mem_entryWrites {toc : List TocEntry} {P : Nat} {j : Nat}
    {w : String × Int} (h : w ∈ entryWrites toc P j) : w.2 ≤ (P : Int) := by
  unfold entryWrites at h
  split at h
  · simp only [List.mem_map, List.mem_filter, decide_eq_true_eq] at h
    obtain ⟨p, ⟨_, hp⟩, rfl⟩ := h
    show p + 1 ≤ (P : Int)
    omega
  · simp at h

/-- claim C5 — An outline entry whose `startPage` equals the next entry's
`startPage` gets the empty range `[startPage, startPage - 1]`
(`firstPage > lastPage`), contributes no written file, and the loop carries
on: the full write list is exactly the concatenation of the other entries'
writes (the model is total — no error is raised, matching Python's
`range(a, a)` being empty). -/
theorem C5_empty_range (toc : List TocEntry) (P : Nat) (i : Nat)
    (e e2 : TocEntry) (h1 : toc[i]? = some e) (h2 : toc[i + 1]? = some e2)
    (h3 : e.startPage = e2.startPage) :
    firstPageOf toc i > lastPageOf toc P i ∧
    entryWrites toc P i = [] ∧
    sectionWrites toc P =
      ((List.range toc.length).filter (fun j => j ≠ i)).flatMap
        (entryWrites toc P) := by
  have hlast : lastPageOf toc P i = e.startPage - 1 := by
    simp [lastPageOf, h2, h3]
  have hfirst : firstPageOf toc i = e.startPage := by
    simp [firstPageOf, h1]
  have hnil : intRange (e.startPage - 1) (lastPageOf toc P i) = [] := by
    rw [hlast]
    exact intRange_eq_nil (by omega)
  have hw : entryWrites toc P i = [] := by
    simp [entryWrites, h1, hnil]
  exact ⟨by rw [hfirst, hlast]; omega, hw, flatMap_filter_ne _ i _ hw⟩

theorem C5_empty_range_witness :
    firstPageOf [⟨1, "A", 3⟩, ⟨1, "B", 3⟩] 0 >
      lastPageOf [⟨1, "A", 3⟩, ⟨1, "B", 3⟩] 10 0 ∧
    entryWrites [⟨1, "A", 3⟩, ⟨1, "B", 3⟩] 10 0 = [] ∧
    sectionWrites [⟨1, "A", 3⟩, ⟨1, "B", 3⟩] 10 =
      ((List.range 2).filter (fun j => j ≠ 0)).flatMap
        (entryWrites [⟨1, "A", 3⟩, ⟨1, "B", 3⟩] 10) :=
  C5_empty_range [⟨1, "A", 3⟩, ⟨1, "B", 3⟩] 10 0 ⟨1, "A", 3⟩ ⟨1, "B", 3⟩
    rfl rfl rfl

/-- claim C6 — An outline entry whose `startPage` exceeds the rendered page
count `P` produces zero written files (its whole index range fails the
`page_num < len(images)` guard) and no error; moreover every file the loop
ever writes has page number at most `P`, i.e. the guarded 0-based index
`page_num = pageNumber - 1` never reaches past the rendered sequence. -/
theorem C6_out_of_range (toc : List TocEntry) (P : Nat) (i : Nat)
    (e : TocEntry) (h1 : toc[i]? = some e) (h2 : (P : Int) < e.startPage) :
    entryWrites toc P i = [] ∧
    ∀ w ∈ sectionWrites toc P, w.2 ≤ (P : Int) := by
  constructor
  · have hfil : (intRange (e.startPage - 1) (lastPageOf toc P i)).filter
        (fun p => p < (P : Int)) = [] := by
      apply List.filter_eq_nil_iff.mpr
      intro a ha
      have hm := mem_intRange.mp ha
      simp only [decide_eq_true_eq]
      omega
    simp [entryWrites, h1, hfil]
  · intro w hw
    obtain ⟨j, _, hj⟩ := List.mem_flatMap.mp hw
    exact snd_le_of_mem_entryWrites hj

theorem C6_out_of_range_witness :
    entryWrites [⟨1, "A", 1⟩, ⟨1, "B", 11⟩] 5 1 = [] ∧
    (("A", (3 : Int)) : String × Int).2 ≤ (((5 : Nat) : Int)) :=
  ⟨(C6_out_of_range [⟨1, "A", 1⟩, ⟨1, "B", 11⟩] 5 1 ⟨1, "B", 11⟩ rfl
      (by decide)).1,
   (C6_out_of_range [⟨1, "A", 1⟩, ⟨1, "B", 11⟩] 5 1 ⟨1, "B", 11⟩ rfl
      (by decide)).2 ("A", 3) (by decide)⟩

/-- claim C3 counterexample — the section-images lookup does NOT distinguish
its failure cases by error kind: at the concrete store
`[("doc", root with one empty section "sec")]`, the empty-section failure
and the missing-root failure carry the very same error kind (HTTP status
404); there is no distinct NoContent kind. -/
theorem C3_error_kinds_counterexample :
    errStatus (get_toc_images [("doc", ⟨[], [⟨"sec", []⟩]⟩)] "doc" "sec") =
      errStatus (get_toc_images [("doc", ⟨[], [⟨"sec", []⟩]⟩)] "nope" "other") ∧
    errStatus (get_toc_images [("doc", ⟨[], [⟨"sec", []⟩]⟩)] "doc" "sec") =
      some 404 := by
  decide

/-- claim C3 (amended) — The section-images lookup distinguishes its failure
cases only by detail message, not by error kind: a missing document root or
a missing section directory fails with status 404 and a "not found" detail,
and a section directory that exists but contains zero qualifying image
files also fails with status 404, with a "No images found" detail — the
same status code, so the empty case is not a distinct error kind. -/
theorem C3_error_kinds :
    (∀ (fs : StoreFS) (d s : String), lookupRoot fs d = none →
        get_toc_images fs d s =
          .error (404, "PDF directory \x27" ++ d ++ "\x27 not found")) ∧
    (∀ (fs : StoreFS) (d s : String) (doc : DocRoot),
        lookupRoot fs d = some doc →
        sectionExists doc (sanitize s) = false →
        get_toc_images fs d s =
          .error (404, "TOC section \x27" ++ s ++
            "\x27 not found in PDF directory \x27" ++ d ++ "\x27")) ∧
    (∀ (fs : StoreFS) (d s : String) (doc : DocRoot) (files : List String),
        lookupRoot fs d = some doc →
        sectionExists doc (sanitize s) = true →
        sectionListing doc (sanitize s) = some files →
        files.filter isImageFile = [] →
        get_toc_images fs d s =
          .error (404, "No images found in TOC section \x27" ++ s ++ "\x27")) := by
  refine ⟨fun fs d s h => ?_, fun fs d s doc h1 h2 => ?_,
    fun fs d s doc files h1 h2 h3 h4 => ?_⟩
  · simp [get_toc_images, h]
  · simp [get_toc_images, h1, h2]
  · simp [get_toc_images, h1, h2, h3, h4, List.insertionSort]

theorem C3_error_kinds_witness :
    get_toc_images [] "d" "s" =
      .error (404, "PDF directory \x27d\x27 not found") ∧
    get_toc_images [("d", ⟨[], []⟩)] "d" "s" =
      .error (404,
        "TOC section \x27s\x27 not found in PDF directory \x27d\x27") ∧
    get_toc_images [("d", ⟨[], [⟨"s", []⟩]⟩)] "d" "s" =
      .error (404, "No images found in TOC section \x27s\x27") := by
  refine ⟨?_, ?_, ?_⟩
  · have h := C3_error_kinds.1 [] "d" "s" rfl
    simpa using h
  · have h := C3_error_kinds.2.1 [("d", ⟨[], []⟩)] "d" "s" ⟨[], []⟩
      (by decide) (by decide)
    simpa using h
  · have h := C3_error_kinds.2.2 [("d", ⟨[], [⟨"s", []⟩]⟩)] "d" "s"
      ⟨[], [⟨"s", []⟩]⟩ [] (by decide) (by decide) (by decide) rfl
    simpa using h

/-- claim C7 — For a section directory written by processing (all its files
qualify by extension, carry extractable pairwise-distinct `page_<n>` keys,
and the name is in sanitized form so looking it up re-sanitizes to itself),
`get_toc_images` succeeds and returns URIs for exactly the files present in
the directory (a permutation of them), ordered by strictly ascending
numeric page suffix. -/
theorem C7_lookup_roundtrip (fs : StoreFS) (d sec : String) (doc : DocRoot)
    (files : List String)
    (h1 : lookupRoot fs d = some doc)
    (h2 : sanitize sec ≠ "")
    (h3 : doc.sections.find? (fun sd => sd.name = sanitize sec) =
      some ⟨sanitize sec, files⟩)
    (h4 : ∀ f ∈ files, isImageFile f = true)
    (h5 : ∀ f ∈ files, (pageKey f).isSome = true)
    (h6 : files.Pairwise (fun a b => keyD a ≠ keyD b))
    (h7 : files ≠ []) :
    get_toc_images fs d sec =
      .ok ((List.insertionSort keyLe files).map
        (fun f => "/images/" ++ d ++ "/" ++ sanitize sec ++ "/" ++ f)) ∧
    (List.insertionSort keyLe files).Perm files ∧
    (List.insertionSort keyLe files).Pairwise (fun a b => keyD a < keyD b) := by
  have hperm : (List.insertionSort keyLe files).Perm files :=
    List.perm_insertionSort keyLe files
  have hex : sectionExists doc (sanitize sec) = true := by
    simp only [sectionExists, Bool.or_eq_true, List.any_eq_true]
    exact Or.inl (Or.inr ⟨⟨sanitize sec, files⟩, List.mem_of_find?_eq_some h3,
      by simp⟩)
  have hlisting : sectionListing doc (sanitize sec) = some files := by
    simp [sectionListing, h2, h3]
  have hfilter : files.filter isImageFile = files :=
    List.filter_eq_self.mpr h4
  have hall : files.all (fun f => (pageKey f).isSome) = true :=
    List.all_eq_true.mpr h5
  have hnil : ¬ List.insertionSort keyLe files = [] := by
    intro hn
    exact h7 (List.Perm.eq_nil (hn ▸ hperm).symm)
  have hmain : get_toc_images fs d sec =
      .ok ((List.insertionSort keyLe files).map
        (fun f => "/images/" ++ d ++ "/" ++ sanitize sec ++ "/" ++ f)) := by
    simp [get_toc_images, h1, hex, hlisting, hfilter, hall, hnil]
  have hsorted : (List.insertionSort keyLe files).Pairwise keyLe :=
    List.sorted_insertionSort keyLe files
  have hdistinct : (List.insertionSort keyLe files).Pairwise
      (fun a b => keyD a ≠ keyD b) :=
    (hperm.pairwise_iff (fun h => Ne.symm h)).mpr h6
  refine ⟨hmain, hperm, ?_⟩
  exact (hsorted.and hdistinct).imp
    (fun h => lt_of_le_of_ne h.1 h.2)

theorem C7_lookup_roundtrip_witness :
    get_toc_images
        [("doc", ⟨[], [⟨"Methods", ["page_10.jpg", "page_2.jpg"]⟩]⟩)]
        "doc" "Methods" =
      .ok ((List.insertionSort keyLe ["page_10.jpg", "page_2.jpg"]).map
        (fun f => "/images/" ++ "doc" ++ "/" ++ sanitize "Methods" ++ "/" ++ f)) ∧
    (List.insertionSort keyLe ["page_10.jpg", "page_2.jpg"]).Perm
      ["page_10.jpg", "page_2.jpg"] ∧
    (List.insertionSort keyLe ["page_10.jpg", "page_2.jpg"]).Pairwise
      (fun a b => keyD a < keyD b) :=
  C7_lookup_roundtrip
    [("doc", ⟨[], [⟨"Methods", ["page_10.jpg", "page_2.jpg"]⟩]⟩)]
    "doc" "Methods" ⟨[], [⟨"Methods", ["page_10.jpg", "page_2.jpg"]⟩]⟩
    ["page_10.jpg", "page_2.jpg"] (by decide) (by decide) (by decide)
    (by decide) (by decide) (by decide) (by decide)

/-- claim C8 — evaluation at the failing input: when no `page_<n>.jpg`
exists anywhere under the root, the endpoint does NOT fail with NotFound —
the `HTTPException(404, ...)` raised inside the `try` block is caught by
`except Exception` and re-raised as status 500 with the 404 message
embedded in its detail.  The remaining behaviours of the claim hold: exact
`.jpg`-only matching (a `.jpeg`/`.png` page file is never found) and
first-match traversal with the containing section name. -/
theorem C8_page_lookup_miss_is_500 :
    get_page_image [("doc", ⟨[], [⟨"Intro", ["page_1.jpg"]⟩]⟩)] "doc" 3 =
      .error (500, "Error searching for page: 404: Page 3 not found in PDF directory \x27doc\x27") ∧
    errStatus (get_page_image [("doc", ⟨[], [⟨"Intro", ["page_1.jpg"]⟩]⟩)]
      "doc" 3) ≠ some 404 ∧
    get_page_image [("doc", ⟨[], [⟨"Intro", ["page_5.jpeg", "page_5.png"]⟩]⟩)]
        "doc" 5 =
      .error (500, "Error searching for page: 404: Page 5 not found in PDF directory \x27doc\x27") ∧
    get_page_image [("doc", ⟨[], [⟨"A", ["page_5.jpg"]⟩, ⟨"B", ["page_5.jpg"]⟩]⟩)]
        "doc" 5 =
      .ok ("A", "/images/doc/A/page_5.jpg") := by
  refine ⟨rfl, by decide, rfl, rfl⟩

end GrantEngine
